import Mathlib

/-
  Verification of the CircularBuffer container (src/encryption.hpp).

  The C++ class template CircularBuffer<T, cap, Container = std::array<T, cap>>
  is embedded shallowly: the fixed storage std::array<T, cap> becomes a
  List of length cap, the int fields _head, _tail, _size, _current, _capacity
  become Nat fields (they are never negative in any reachable state), and the
  fallible member functions (place_back, pop: both throw; head, tail: at()
  may throw std::out_of_range) return the thrown error alongside the
  post-call object state (C++ throws happen before any mutation).

  The inner class CircularBufferIterator<Buffer, Iterator> stores a reference
  to the underlying container, the starting physical position _begin, the
  current physical position _cursor, and the _done flag.  Physical positions
  are Nat offsets into the storage; the one-past-the-end position of the
  container is the offset cap.  The container reference is passed explicitly
  to the operations that need it.
-/

/-- Error taxonomy: the exceptions thrown in src/encryption.hpp
(std::overflow_error, std::underflow_error, std::out_of_range from at()). -/
inductive CBError where
  | overflow_error
  | underflow_error
  | out_of_range
deriving DecidableEq

/-- The CircularBuffer data members: Container c and the five int counters. -/
structure CircularBuffer (α : Type) where
  c : List α
  _head : Nat
  _tail : Nat
  _size : Nat
  _current : Nat
  _capacity : Nat
deriving DecidableEq

variable {α : Type}

/-- The constructor: all counters zero, _capacity = cap.  The storage contents
are indeterminate in C++ (the std::array is not value-initialized), so the
initial storage list c0 is a parameter. -/
def CircularBuffer.init (c0 : List α) (cap : Nat) : CircularBuffer α :=
  ⟨c0, 0, 0, 0, 0, cap⟩

/-- size(): returns _size. -/
def CircularBuffer.size (s : CircularBuffer α) : Nat := s._size

/-- capacity(): returns _capacity. -/
def CircularBuffer.capacity (s : CircularBuffer α) : Nat := s._capacity

/-- empty(): size() <= 0. -/
def CircularBuffer.empty (s : CircularBuffer α) : Bool := s.size ≤ 0

/-- full(): (int)size() >= _capacity. -/
def CircularBuffer.full (s : CircularBuffer α) : Bool := s.size ≥ s._capacity

/-- head() accessor: c.at(_head); at() throws std::out_of_range when the
index is not below the container length, otherwise yields the element. -/
def CircularBuffer.head (s : CircularBuffer α) : Except CBError α :=
  if h : s._head < s.c.length then Except.ok (s.c.get ⟨s._head, h⟩)
  else Except.error CBError.out_of_range

/-- tail() accessor: c.at(_tail). -/
def CircularBuffer.tail (s : CircularBuffer α) : Except CBError α :=
  if h : s._tail < s.c.length then Except.ok (s.c.get ⟨s._tail, h⟩)
  else Except.error CBError.out_of_range

/-- push_back(val): reset _current to 0 when it reached _capacity, write val
at _current and post-increment it, set _tail = _current - 1, then on
(_size++ >= _capacity) clamp _size to _capacity and advance _head with wrap,
else keep the incremented _size. -/
def CircularBuffer.push_back (s : CircularBuffer α) (v : α) : CircularBuffer α :=
  let cur0 := if s._current ≥ s._capacity then 0 else s._current
  let c1 := s.c.set cur0 v
  let cur1 := cur0 + 1
  let tl1 := cur1 - 1
  if s._size ≥ s._capacity then
    let hd1 := s._head + 1
    let hd2 := if hd1 ≥ s._capacity then 0 else hd1
    ⟨c1, hd2, tl1, s._capacity, cur1, s._capacity⟩
  else
    ⟨c1, s._head, tl1, s._size + 1, cur1, s._capacity⟩

/-- place_back(val): throws overflow_error when full(), else push_back(val).
The first component is the thrown exception (if any), the second the object
state after the call. -/
def CircularBuffer.place_back (s : CircularBuffer α) (v : α) :
    Option CBError × CircularBuffer α :=
  if s.full then (some CBError.overflow_error, s)
  else (none, s.push_back v)

/-- pop(): throws underflow_error when _size <= 0, else advances _head with
wrap at _capacity and decrements _size. -/
def CircularBuffer.pop (s : CircularBuffer α) : Option CBError × CircularBuffer α :=
  if s._size ≤ 0 then (some CBError.underflow_error, s)
  else
    let hd1 := s._head + 1
    let hd2 := if hd1 ≥ s._capacity then 0 else hd1
    (none, ⟨s.c, hd2, s._tail, s._size - 1, s._current, s._capacity⟩)

/-- The iterator state: starting physical position _begin, current physical
position _cursor, completion flag _done.  The container reference of the C++
class is passed explicitly to the operations below. -/
structure CircularBufferIterator where
  _begin : Nat
  _cursor : Nat
  _done : Bool
deriving DecidableEq

/-- operator++ (pre-increment): advance _cursor; when it equals the
one-past-the-end position n of the container, wrap it to position 0; then
_done = (_cursor == _begin). -/
def CircularBufferIterator.inc (n : Nat) (it : CircularBufferIterator) :
    CircularBufferIterator :=
  let c1 := it._cursor + 1
  let c2 := if c1 = n then 0 else c1
  ⟨it._begin, c2, c2 == it._begin⟩

/-- operator==: true when both _done; cursor comparison when neither _done;
false otherwise. -/
def CircularBufferIterator.beq (a b : CircularBufferIterator) : Bool :=
  if a._done && b._done then true
  else if !a._done && !b._done then a._cursor == b._cursor
  else false

/-- operator!=: the negation of operator==. -/
def CircularBufferIterator.bne (a b : CircularBufferIterator) : Bool :=
  !(a.beq b)

/-- The offset computed by end(): the source expression _tail + 1 % _capacity
(the modulo binds tighter than the addition, in Lean exactly as in C++). -/
def endOffset (tl cap : Nat) : Nat := tl + 1 % cap

/-- Modelled from the spec: the intended end-of-iteration offset
(tail + 1) mod capacity, for comparison with endOffset. -/
def intendedEndOffset (tl cap : Nat) : Nat := (tl + 1) % cap

/-- begin(): iterator at offset _head % _capacity, not done. -/
def CircularBuffer.begin (s : CircularBuffer α) : CircularBufferIterator :=
  ⟨s._head % s._capacity, s._head % s._capacity, false⟩

/-- end(): iterator at offset _tail + 1 % _capacity, done flag full(). -/
def CircularBuffer.endIter (s : CircularBuffer α) : CircularBufferIterator :=
  ⟨endOffset s._tail s._capacity, endOffset s._tail s._capacity, s.full⟩

/-- The canonical traversal loop over the iterator pair: starting from it,
while it != e, dereference the current element and pre-increment; fuel bounds
the number of loop iterations, none meaning e was not reached within fuel
steps.  n is the one-past-the-end position and c the container contents. -/
def collect [Inhabited α] (n : Nat) (c : List α) (e : CircularBufferIterator) :
    Nat → CircularBufferIterator → Option (List α)
  | 0, _ => none
  | fuel + 1, it =>
    if it.beq e then some []
    else
      match collect n c e fuel (it.inc n) with
      | none => none
      | some l => some (c.getD it._cursor default :: l)

/-- The mutating operations, for describing reachable buffer states. -/
inductive Op (α : Type) where
  | push (v : α)
  | place (v : α)
  | pop
deriving DecidableEq

/-- One operation applied to the buffer; for the fallible operations the
object state after the call is kept whether or not the call threw. -/
def stepOp (s : CircularBuffer α) : Op α → CircularBuffer α
  | Op.push v => s.push_back v
  | Op.place v => (s.place_back v).2
  | Op.pop => s.pop.2

/-- A finite operation sequence applied to the buffer. -/
def runOps (s : CircularBuffer α) : List (Op α) → CircularBuffer α
  | [] => s
  | op :: ops => runOps (stepOp s op) ops

/-- A buffer state reachable from a freshly constructed buffer (capacity at
least 1, storage of matching length) by a finite operation sequence. -/
def Reachable (s : CircularBuffer α) : Prop :=
  ∃ (cap : Nat) (c0 : List α) (ops : List (Op α)),
    1 ≤ cap ∧ c0.length = cap ∧ s = runOps (CircularBuffer.init c0 cap) ops

/-- The live elements of the buffer, oldest to newest: the _size slots
starting at _head, stepping with wraparound. -/
def liveList [Inhabited α] (s : CircularBuffer α) : List α :=
  (List.range s._size).map (fun i => s.c.getD ((s._head + i) % s._capacity) default)

/-- A whole list pushed element by element via push_back. -/
def pushAll (s : CircularBuffer α) (vs : List α) : CircularBuffer α :=
  vs.foldl CircularBuffer.push_back s

/-- The structural invariant maintained by all operations. -/
def BufInv (s : CircularBuffer α) : Prop :=
  1 ≤ s._capacity ∧ s.c.length = s._capacity ∧ s._head < s._capacity ∧
  s._tail < s._capacity ∧ s._size ≤ s._capacity ∧ s._current ≤ s._capacity

/-- The state of a buffer after pushing the list vs into a fresh buffer of
capacity cap: characterizes capacity, storage length, size, the wrapped
write cursor, the head index, and the live storage slots (the last
min vs.length cap pushed values, oldest to newest, starting at head). -/
def PushInv [Inhabited α] (cap : Nat) (vs : List α) (s : CircularBuffer α) : Prop :=
  s._capacity = cap ∧ s.c.length = cap ∧ s._size = min vs.length cap ∧
  (if s._current ≥ cap then 0 else s._current) = vs.length % cap ∧
  s._head = (if vs.length ≤ cap then 0 else (vs.length - cap) % cap) ∧
  ∀ i, i < min vs.length cap →
    s.c.getD ((s._head + i) % cap) default =
      vs.getD (vs.length - min vs.length cap + i) default

lemma bufInv_init (c0 : List α) (cap : Nat) (hcap : 1 ≤ cap) (hc0 : c0.length = cap) :
    BufInv (CircularBuffer.init c0 cap) := by
  refine ⟨hcap, hc0, ?_, ?_, ?_, ?_⟩ <;> simp [CircularBuffer.init] <;> omega

lemma bufInv_push_back (s : CircularBuffer α) (v : α) (h : BufInv s) :
    BufInv (s.push_back v) := by
  obtain ⟨h1, h2, h3, h4, h5, h6⟩ := h
  unfold CircularBuffer.push_back BufInv
  split_ifs <;> simp_all [List.length_set] <;> (try split_ifs) <;> omega

lemma bufInv_pop (s : CircularBuffer α) (h : BufInv s) : BufInv s.pop.2 := by
  obtain ⟨h1, h2, h3, h4, h5, h6⟩ := h
  unfold CircularBuffer.pop BufInv
  split_ifs <;> simp_all <;> (try split_ifs) <;> omega

lemma bufInv_place_back (s : CircularBuffer α) (v : α) (h : BufInv s) :
    BufInv (s.place_back v).2 := by
  unfold CircularBuffer.place_back
  split_ifs
  · exact h
  · exact bufInv_push_back s v h

lemma bufInv_stepOp (s : CircularBuffer α) (op : Op α) (h : BufInv s) : BufInv (stepOp s op) := by
  cases op with
  | push v => exact bufInv_push_back s v h
  | place v => exact bufInv_place_back s v h
  | pop => exact bufInv_pop s h

lemma bufInv_runOps (s : CircularBuffer α) (ops : List (Op α)) (h : BufInv s) :
    BufInv (runOps s ops) := by
  induction ops generalizing s with
  | nil => exact h
  | cons op ops ih => exact ih _ (bufInv_stepOp s op h)

lemma reachable_bufInv (s : CircularBuffer α) (h : Reachable s) : BufInv s := by
  obtain ⟨cap, c0, ops, hcap, hc0, rfl⟩ := h
  exact bufInv_runOps _ _ (bufInv_init c0 cap hcap hc0)

lemma wrap_ge_eq_mod (cap x : Nat) (hx : x < cap) :
    (if x + 1 ≥ cap then 0 else x + 1) = (x + 1) % cap := by
  rcases Nat.lt_or_ge (x + 1) cap with h | h
  · rw [if_neg (by omega), Nat.mod_eq_of_lt h]
  · have hx1 : x + 1 = cap := by omega
    rw [if_pos (by omega), hx1, Nat.mod_self]

lemma wrap_eq_eq_mod (cap x : Nat) (hx : x < cap) :
    (if x + 1 = cap then 0 else x + 1) = (x + 1) % cap := by
  rcases Nat.lt_or_ge (x + 1) cap with h | h
  · rw [if_neg (by omega), Nat.mod_eq_of_lt h]
  · have hx1 : x + 1 = cap := by omega
    rw [if_pos (by omega), hx1, Nat.mod_self]

lemma mod_add_cancel_iff (cap : Nat) (hcap : 0 < cap) (x : Nat) {i j : Nat}
    (hi : i < cap) (hj : j < cap) : (x + i) % cap = (x + j) % cap ↔ i = j := by
  constructor
  · intro h
    have h2 : i ≡ j [MOD cap] := Nat.ModEq.add_left_cancel' x h
    have h3 : i % cap = j % cap := h2
    rwa [Nat.mod_eq_of_lt hi, Nat.mod_eq_of_lt hj] at h3
  · rintro rfl; rfl

lemma getD_of_lt {β : Type} (l : List β) (i : Nat) (d : β) (h : i < l.length) :
    l.getD i d = l.get ⟨i, h⟩ := by
  rw [List.getD_eq_getElem?_getD, List.getElem?_eq_getElem h]
  rfl

lemma getD_set_self {β : Type} (l : List β) (i : Nat) (v d : β) (h : i < l.length) :
    (l.set i v).getD i d = v := by
  rw [List.getD_eq_getElem?_getD, List.getElem?_set_eq_of_lt v h]
  rfl

lemma getD_set_ne {β : Type} (l : List β) (i j : Nat) (v d : β) (h : i ≠ j) :
    (l.set i v).getD j d = l.getD j d := by
  rw [List.getD_eq_getElem?_getD, List.getElem?_set_ne h, ← List.getD_eq_getElem?_getD]

lemma getD_append_left {β : Type} (l1 l2 : List β) (i : Nat) (d : β)
    (h : i < l1.length) : (l1 ++ l2).getD i d = l1.getD i d := by
  rw [List.getD_eq_getElem?_getD, List.getElem?_append_left h, ← List.getD_eq_getElem?_getD]

lemma getD_concat_self {β : Type} (l : List β) (v d : β) :
    (l ++ [v]).getD l.length d = v := by
  rw [List.getD_eq_getElem?_getD, List.getElem?_concat_length]
  rfl

lemma getD_map_range {β : Type} [Inhabited β] (n i : Nat) (f : Nat → β) (h : i < n) :
    ((List.range n).map f).getD i default = f i := by
  rw [List.getD_eq_getElem?_getD, List.getElem?_map, List.getElem?_range h]
  rfl

/-- C4: for every reachable buffer state, place_back fails with an Overflow
error exactly when size() equals the capacity; on failure the buffer state is
unchanged; when size() is below the capacity it succeeds and yields exactly
the state push_back of the same value would produce. -/
theorem C4_place_back_spec (s : CircularBuffer α) (v : α) (h : Reachable s) :
    ((s.place_back v).1 = some CBError.overflow_error ↔ s.size = s._capacity) ∧
    ((s.place_back v).1.isSome → (s.place_back v).2 = s) ∧
    (s.size < s._capacity →
      (s.place_back v).1 = none ∧ (s.place_back v).2 = s.push_back v) := by
  obtain ⟨h1, h2, h3, h4, h5, h6⟩ := reachable_bufInv s h
  unfold CircularBuffer.place_back CircularBuffer.full
  by_cases hf : s.size ≥ s._capacity
  · rw [if_pos (by simpa using hf)]
    refine ⟨⟨fun _ => ?_, fun _ => rfl⟩, fun _ => rfl, fun hlt => absurd hf (by omega)⟩
    have : s.size = s._size := rfl
    omega
  · rw [if_neg (by simpa using hf)]
    exact ⟨⟨fun hc => by simp at hc, fun hc => absurd hf (by omega)⟩,
      fun hc => by simp at hc, fun _ => ⟨rfl, rfl⟩⟩

/-- C4 witness: a concrete full reachable buffer (capacity 1, one push). -/
theorem C4_place_back_spec_w :
    Reachable (runOps (CircularBuffer.init ([0] : List Nat) 1) [Op.push 3]) ∧
    (((runOps (CircularBuffer.init ([0] : List Nat) 1) [Op.push 3]).place_back 9).1 =
        some CBError.overflow_error ↔
      (runOps (CircularBuffer.init ([0] : List Nat) 1) [Op.push 3]).size =
        (runOps (CircularBuffer.init ([0] : List Nat) 1) [Op.push 3])._capacity) ∧
    (((runOps (CircularBuffer.init ([0] : List Nat) 1) [Op.push 3]).place_back 9).1.isSome →
      ((runOps (CircularBuffer.init ([0] : List Nat) 1) [Op.push 3]).place_back 9).2 =
        runOps (CircularBuffer.init ([0] : List Nat) 1) [Op.push 3]) ∧
    ((runOps (CircularBuffer.init ([0] : List Nat) 1) [Op.push 3]).size <
        (runOps (CircularBuffer.init ([0] : List Nat) 1) [Op.push 3])._capacity →
      ((runOps (CircularBuffer.init ([0] : List Nat) 1) [Op.push 3]).place_back 9).1 = none ∧
      ((runOps (CircularBuffer.init ([0] : List Nat) 1) [Op.push 3]).place_back 9).2 =
        (runOps (CircularBuffer.init ([0] : List Nat) 1) [Op.push 3]).push_back 9) :=
  ⟨⟨1, [0], [Op.push 3], Nat.le_refl 1, rfl, rfl⟩,
    C4_place_back_spec _ 9 ⟨1, [0], [Op.push 3], Nat.le_refl 1, rfl, rfl⟩⟩

/-- C5: for every reachable buffer state, pop fails with an Underflow error
exactly when size() is 0; when size() is positive it succeeds, advances _head
circularly by one and decrements size() by one; and when the prior size() is
at least 2, front() (the head() accessor) afterwards returns the second
oldest live element of the prior state. -/
theorem C5_pop_spec [Inhabited α] (s : CircularBuffer α) (h : Reachable s) :
    (s.pop.1 = some CBError.underflow_error ↔ s.size = 0) ∧
    (0 < s.size → s.pop.1 = none ∧
      s.pop.2._head = (s._head + 1) % s._capacity ∧ s.pop.2.size = s.size - 1) ∧
    (2 ≤ s.size → s.pop.2.head = Except.ok ((liveList s).getD 1 default)) := by
  obtain ⟨h1, h2, h3, h4, h5, h6⟩ := reachable_bufInv s h
  by_cases h0 : s._size ≤ 0
  · have hpop : s.pop = (some CBError.underflow_error, s) := by
      unfold CircularBuffer.pop; rw [if_pos h0]
    have hsz : s.size = 0 := by unfold CircularBuffer.size; omega
    rw [hpop]
    refine ⟨⟨fun _ => hsz, fun _ => rfl⟩, fun hc => ?_, fun hc => ?_⟩ <;>
      (exfalso; omega)
  · have hd2eq : (if s._head + 1 ≥ s._capacity then 0 else s._head + 1) =
        (s._head + 1) % s._capacity := wrap_ge_eq_mod _ _ h3
    have hpop : s.pop = (none, ⟨s.c, (s._head + 1) % s._capacity, s._tail,
        s._size - 1, s._current, s._capacity⟩) := by
      unfold CircularBuffer.pop
      rw [if_neg h0]
      simp only [hd2eq]
    have hlt : (s._head + 1) % s._capacity < s.c.length := by
      rw [h2]; exact Nat.mod_lt _ (by omega)
    rw [hpop]
    refine ⟨⟨fun hc => by simp at hc, fun hc => by unfold CircularBuffer.size at hc; omega⟩,
      fun _ => ⟨rfl, rfl, rfl⟩, fun h2le => ?_⟩
    unfold CircularBuffer.head
    simp only []
    rw [dif_pos hlt]
    congr 1
    unfold liveList
    rw [getD_map_range _ 1 _ (by unfold CircularBuffer.size at h2le; omega),
      getD_of_lt s.c _ default hlt]

/-- C5 witness: a concrete reachable buffer with two live elements. -/
theorem C5_pop_spec_w :
    Reachable (runOps (CircularBuffer.init ([0, 0] : List Nat) 2) [Op.push 4, Op.push 6]) ∧
    (((runOps (CircularBuffer.init ([0, 0] : List Nat) 2) [Op.push 4, Op.push 6]).pop.1 =
        some CBError.underflow_error ↔
      (runOps (CircularBuffer.init ([0, 0] : List Nat) 2) [Op.push 4, Op.push 6]).size = 0) ∧
     (0 < (runOps (CircularBuffer.init ([0, 0] : List Nat) 2) [Op.push 4, Op.push 6]).size →
      (runOps (CircularBuffer.init ([0, 0] : List Nat) 2) [Op.push 4, Op.push 6]).pop.1 = none ∧
      (runOps (CircularBuffer.init ([0, 0] : List Nat) 2) [Op.push 4, Op.push 6]).pop.2._head =
        ((runOps (CircularBuffer.init ([0, 0] : List Nat) 2) [Op.push 4, Op.push 6])._head + 1) %
          (runOps (CircularBuffer.init ([0, 0] : List Nat) 2) [Op.push 4, Op.push 6])._capacity ∧
      (runOps (CircularBuffer.init ([0, 0] : List Nat) 2) [Op.push 4, Op.push 6]).pop.2.size =
        (runOps (CircularBuffer.init ([0, 0] : List Nat) 2) [Op.push 4, Op.push 6]).size - 1) ∧
     (2 ≤ (runOps (CircularBuffer.init ([0, 0] : List Nat) 2) [Op.push 4, Op.push 6]).size →
      (runOps (CircularBuffer.init ([0, 0] : List Nat) 2) [Op.push 4, Op.push 6]).pop.2.head =
        Except.ok ((liveList (runOps (CircularBuffer.init ([0, 0] : List Nat) 2)
          [Op.push 4, Op.push 6])).getD 1 default))) :=
  ⟨⟨2, [0, 0], [Op.push 4, Op.push 6], by omega, rfl, rfl⟩,
    C5_pop_spec _ ⟨2, [0, 0], [Op.push 4, Op.push 6], by omega, rfl, rfl⟩⟩

/-- C6 counterexample: on a freshly constructed (hence empty) buffer of
capacity 1 the accessors do not fail: head() and tail() return the
indeterminate slot contents, because _head and _tail are always in bounds
and at() only checks bounds. -/
theorem C6_cex_accessors_succeed_when_empty :
    (CircularBuffer.init ([5] : List Nat) 1).size = 0 ∧
    (CircularBuffer.init ([5] : List Nat) 1).head = Except.ok 5 ∧
    (CircularBuffer.init ([5] : List Nat) 1).tail = Except.ok 5 :=
  ⟨rfl, rfl, rfl⟩

/-- C6 amended: for every reachable buffer state the accessors head() and
tail() never fail, regardless of size(): they return the storage slot at the
head resp. tail index (indeterminate contents when size() is 0). -/
theorem C6_accessors_total [Inhabited α] (s : CircularBuffer α) (h : Reachable s) :
    s.head = Except.ok (s.c.getD s._head default) ∧
    s.tail = Except.ok (s.c.getD s._tail default) := by
  obtain ⟨h1, h2, h3, h4, h5, h6⟩ := reachable_bufInv s h
  have hh : s._head < s.c.length := by omega
  have ht : s._tail < s.c.length := by omega
  unfold CircularBuffer.head CircularBuffer.tail
  rw [dif_pos hh, dif_pos ht, getD_of_lt s.c _ default hh, getD_of_lt s.c _ default ht]
  exact ⟨rfl, rfl⟩

/-- C6 witness: the amended theorem applied to a concrete empty buffer. -/
theorem C6_accessors_total_w :
    Reachable (CircularBuffer.init ([5] : List Nat) 1) ∧
    ((CircularBuffer.init ([5] : List Nat) 1).head =
      Except.ok ((CircularBuffer.init ([5] : List Nat) 1).c.getD
        (CircularBuffer.init ([5] : List Nat) 1)._head default) ∧
     (CircularBuffer.init ([5] : List Nat) 1).tail =
      Except.ok ((CircularBuffer.init ([5] : List Nat) 1).c.getD
        (CircularBuffer.init ([5] : List Nat) 1)._tail default)) :=
  ⟨⟨1, [5], [], Nat.le_refl 1, rfl, rfl⟩,
    C6_accessors_total _ ⟨1, [5], [], Nat.le_refl 1, rfl, rfl⟩⟩

/-- C7 counterexample: after one push into a fresh capacity-1 buffer the
write cursor _current equals _capacity, violating cursor < Capacity. -/
theorem C7_cex_cursor_reaches_capacity :
    Reachable (runOps (CircularBuffer.init ([0] : List Nat) 1) [Op.push 5]) ∧
    ¬ ((runOps (CircularBuffer.init ([0] : List Nat) 1) [Op.push 5])._current <
       (runOps (CircularBuffer.init ([0] : List Nat) 1) [Op.push 5])._capacity) :=
  ⟨⟨1, [0], [Op.push 5], Nat.le_refl 1, rfl, rfl⟩, by decide⟩

/-- C7 amended: at every observable point head, tail and size satisfy the
claimed bounds, while the write cursor satisfies the weaker
0 <= cursor <= Capacity: it equals Capacity right after a push that wrote
the last slot (the reset to 0 happens lazily at the start of the next push). -/
theorem C7_counters_bounded (s : CircularBuffer α) (h : Reachable s) :
    s._head < s._capacity ∧ s._tail < s._capacity ∧
    s.size ≤ s._capacity ∧ s._current ≤ s._capacity := by
  obtain ⟨_, _, h3, h4, h5, h6⟩ := reachable_bufInv s h
  exact ⟨h3, h4, h5, h6⟩

/-- C7 witness: the amended bounds at a concrete reachable state. -/
theorem C7_counters_bounded_w :
    Reachable (runOps (CircularBuffer.init ([0] : List Nat) 1) [Op.push 5]) ∧
    ((runOps (CircularBuffer.init ([0] : List Nat) 1) [Op.push 5])._head <
      (runOps (CircularBuffer.init ([0] : List Nat) 1) [Op.push 5])._capacity ∧
     (runOps (CircularBuffer.init ([0] : List Nat) 1) [Op.push 5])._tail <
      (runOps (CircularBuffer.init ([0] : List Nat) 1) [Op.push 5])._capacity ∧
     (runOps (CircularBuffer.init ([0] : List Nat) 1) [Op.push 5]).size ≤
      (runOps (CircularBuffer.init ([0] : List Nat) 1) [Op.push 5])._capacity ∧
     (runOps (CircularBuffer.init ([0] : List Nat) 1) [Op.push 5])._current ≤
      (runOps (CircularBuffer.init ([0] : List Nat) 1) [Op.push 5])._capacity) :=
  ⟨⟨1, [0], [Op.push 5], Nat.le_refl 1, rfl, rfl⟩,
    C7_counters_bounded _ ⟨1, [0], [Op.push 5], Nat.le_refl 1, rfl, rfl⟩⟩

/-- C8 counterexample: at capacity 2 and tail 0 (which is not the last slot)
the offset computed by end() agrees with the intended (tail+1) mod capacity,
contradicting the claim that they differ for every non-last tail. -/
theorem C8_cex_offsets_agree :
    (1 : Nat) < 2 ∧ (0 : Nat) < 2 ∧ (0 : Nat) ≠ 2 - 1 ∧
    endOffset 0 2 = intendedEndOffset 0 2 := by decide

/-- C8 amended: for capacity > 1 and tail < capacity, the end() offset
tail + (1 mod capacity) diverges from the intended (tail + 1) mod capacity
exactly when tail is the last slot capacity - 1, where the computed offset
is capacity (one past the storage) while the intended one is 0. -/
theorem C8_end_offset_divergence (cap tl : Nat) (h1 : 1 < cap) (h2 : tl < cap) :
    (endOffset tl cap ≠ intendedEndOffset tl cap ↔ tl = cap - 1) ∧
    (tl = cap - 1 → endOffset tl cap = cap ∧ intendedEndOffset tl cap = 0) := by
  have h3 : 1 % cap = 1 := Nat.mod_eq_of_lt h1
  unfold endOffset intendedEndOffset
  rw [h3]
  rcases Nat.lt_or_ge tl (cap - 1) with h4 | h4
  · have h5 : (tl + 1) % cap = tl + 1 := Nat.mod_eq_of_lt (by omega)
    rw [h5]
    exact ⟨⟨fun hne => absurd rfl hne, fun heq => by omega⟩, fun heq => by omega⟩
  · have htl : tl = cap - 1 := by omega
    subst htl
    have h6 : cap - 1 + 1 = cap := by omega
    rw [h6, Nat.mod_self]
    exact ⟨⟨fun _ => rfl, fun _ => by omega⟩, fun _ => ⟨rfl, rfl⟩⟩

/-- C8 witness: the divergence at capacity 3, tail 2. -/
theorem C8_end_offset_divergence_w :
    (1 : Nat) < 3 ∧ (2 : Nat) < 3 ∧
    ((endOffset 2 3 ≠ intendedEndOffset 2 3 ↔ (2 : Nat) = 3 - 1) ∧
     ((2 : Nat) = 3 - 1 → endOffset 2 3 = 3 ∧ intendedEndOffset 2 3 = 0)) :=
  ⟨by decide, by decide, C8_end_offset_divergence 3 2 (by decide) (by decide)⟩

/-- C9: operator== returns true when both iterators are done, compares the
physical cursors when neither is done, and returns false otherwise; and
operator!= is its exact negation. -/
theorem C9_iterator_equality (a b : CircularBufferIterator) :
    (a.beq b = true ↔
      ((a._done = true ∧ b._done = true) ∨
       (a._done = false ∧ b._done = false ∧ a._cursor = b._cursor))) ∧
    a.bne b = !(a.beq b) := by
  refine ⟨?_, rfl⟩
  unfold CircularBufferIterator.beq
  cases ha : a._done <;> cases hb : b._done <;> simp

/-- C10: a successful pop (size() > 0) changes only _head and _size: the
storage contents, the tail index and the write cursor are unchanged. -/
theorem C10_pop_frame (s : CircularBuffer α) (h : 0 < s.size) :
    s.pop.1 = none ∧ s.pop.2.c = s.c ∧ s.pop.2._tail = s._tail ∧
    s.pop.2._current = s._current := by
  have h0 : ¬ s._size ≤ 0 := by unfold CircularBuffer.size at h; omega
  unfold CircularBuffer.pop
  rw [if_neg h0]
  exact ⟨rfl, rfl, rfl, rfl⟩

/-- C10 witness: the frame property at a concrete two-element buffer. -/
theorem C10_pop_frame_w :
    0 < (⟨[4, 6], 0, 1, 2, 2, 2⟩ : CircularBuffer Nat).size ∧
    ((⟨[4, 6], 0, 1, 2, 2, 2⟩ : CircularBuffer Nat).pop.1 = none ∧
     (⟨[4, 6], 0, 1, 2, 2, 2⟩ : CircularBuffer Nat).pop.2.c =
       (⟨[4, 6], 0, 1, 2, 2, 2⟩ : CircularBuffer Nat).c ∧
     (⟨[4, 6], 0, 1, 2, 2, 2⟩ : CircularBuffer Nat).pop.2._tail =
       (⟨[4, 6], 0, 1, 2, 2, 2⟩ : CircularBuffer Nat)._tail ∧
     (⟨[4, 6], 0, 1, 2, 2, 2⟩ : CircularBuffer Nat).pop.2._current =
       (⟨[4, 6], 0, 1, 2, 2, 2⟩ : CircularBuffer Nat)._current) :=
  ⟨by decide, C10_pop_frame _ (by decide)⟩

lemma collect_cycle_none :
    ∀ (fuel : Nat) (it : CircularBufferIterator),
      (it = ⟨1, 1, false⟩ ∨ it = ⟨1, 0, false⟩ ∨ it = ⟨1, 1, true⟩) →
      collect 2 ([1, 2] : List Nat) ⟨2, 2, false⟩ fuel it = none := by
  intro fuel
  induction fuel with
  | zero => intro it _; rfl
  | succ n ih =>
    intro it hit
    rcases hit with h | h | h <;> subst h <;>
      simp [collect, CircularBufferIterator.beq, CircularBufferIterator.inc,
        ih ⟨1, 0, false⟩ (Or.inr (Or.inl rfl)), ih ⟨1, 1, true⟩ (Or.inr (Or.inr rfl))]

/-- C1: the claim that traversal from begin() always reaches end() after
finitely many steps fails on the code: in the reachable state obtained by
push_back(1), push_back(2), pop() on a fresh capacity-2 buffer, end() sits
at the one-past-the-end physical position 2 with done = false (since the
buffer is not full), while the advancing iterator wraps to position 0 before
it can ever equal position 2 and its done flag never matches; so for every
fuel bound the traversal has not reached end(). -/
theorem C1_traversal_nonterminating :
    ∀ fuel : Nat,
      collect 2
        (runOps (CircularBuffer.init ([0, 0] : List Nat) 2)
          [Op.push 1, Op.push 2, Op.pop]).c
        (runOps (CircularBuffer.init ([0, 0] : List Nat) 2)
          [Op.push 1, Op.push 2, Op.pop]).endIter
        fuel
        (runOps (CircularBuffer.init ([0, 0] : List Nat) 2)
          [Op.push 1, Op.push 2, Op.pop]).begin = none := by
  intro fuel
  exact collect_cycle_none fuel ⟨1, 1, false⟩ (Or.inl rfl)

/-- C2: the claim fails at n = 0: on a freshly constructed capacity-2 buffer
size() is 0 and full() is false as claimed, but begin() is at position 0 and
end() at position 1 with neither done, so they compare unequal and the
traversal dereferences one indeterminate slot before stopping: it yields one
element instead of zero. -/
theorem C2_empty_iteration_yields_one_element :
    (CircularBuffer.init ([7, 7] : List Nat) 2).size = 0 ∧
    (CircularBuffer.init ([7, 7] : List Nat) 2).full = false ∧
    collect 2 (CircularBuffer.init ([7, 7] : List Nat) 2).c
      (CircularBuffer.init ([7, 7] : List Nat) 2).endIter 3
      (CircularBuffer.init ([7, 7] : List Nat) 2).begin = some [7] :=
  ⟨rfl, rfl, rfl⟩

lemma push_back_eq (s : CircularBuffer α) (v : α) :
    s.push_back v =
      (if s._size ≥ s._capacity then
        (⟨s.c.set (if s._current ≥ s._capacity then 0 else s._current) v,
          (if s._head + 1 ≥ s._capacity then 0 else s._head + 1),
          (if s._current ≥ s._capacity then 0 else s._current),
          s._capacity,
          (if s._current ≥ s._capacity then 0 else s._current) + 1,
          s._capacity⟩ : CircularBuffer α)
      else
        ⟨s.c.set (if s._current ≥ s._capacity then 0 else s._current) v,
          s._head,
          (if s._current ≥ s._capacity then 0 else s._current),
          s._size + 1,
          (if s._current ≥ s._capacity then 0 else s._current) + 1,
          s._capacity⟩) := by
  unfold CircularBuffer.push_back
  by_cases h1 : s._current ≥ s._capacity <;> by_cases h2 : s._size ≥ s._capacity <;>
    simp [h1, h2]

lemma pushAll_concat (s : CircularBuffer α) (vs : List α) (v : α) :
    pushAll s (vs ++ [v]) = (pushAll s vs).push_back v := by
  unfold pushAll
  rw [List.foldl_append]
  rfl

lemma pushInv_nil [Inhabited α] (cap : Nat) (hcap : 1 ≤ cap) (c0 : List α)
    (hc0 : c0.length = cap) : PushInv cap [] (CircularBuffer.init c0 cap) := by
  unfold PushInv CircularBuffer.init
  refine ⟨rfl, hc0, by simp, by simp, by simp, ?_⟩
  intro i hi
  simp at hi

lemma pushInv_step [Inhabited α] (cap : Nat) (hcap : 1 ≤ cap) (vs : List α) (v : α)
    (s : CircularBuffer α) (h : PushInv cap vs s) :
    PushInv cap (vs ++ [v]) (s.push_back v) := by
  obtain ⟨hcapEq, hlen, hsz, hcur, hhd, hlive⟩ := h
  set m := vs.length with hm0
  have hcur0 : (if s._current ≥ s._capacity then 0 else s._current) = m % cap := by
    rw [hcapEq]; exact hcur
  have hmlt : m % cap < cap := Nat.mod_lt _ (by omega)
  have hmlen : m % cap < s.c.length := by omega
  rcases Nat.lt_or_ge m cap with hmc | hmc
  · -- the buffer is not yet full: the else branch of push_back
    have hmm : m % cap = m := Nat.mod_eq_of_lt hmc
    have hszlt : ¬ (s._size ≥ s._capacity) := by rw [hcapEq, hsz]; omega
    have hhd0 : s._head = 0 := by rw [hhd, if_pos (by omega)]
    have hpb : s.push_back v =
        ⟨s.c.set m v, s._head, m, s._size + 1, m + 1, s._capacity⟩ := by
      rw [push_back_eq, if_neg hszlt, hcur0, hmm]
    rw [hpb]
    unfold PushInv
    refine ⟨hcapEq, by simpa [List.length_set] using hlen, ?_, ?_, ?_, ?_⟩
    · show s._size + 1 = min (vs ++ [v]).length cap
      simp only [List.length_append, List.length_singleton]
      rw [hsz]; omega
    · show (if m + 1 ≥ cap then 0 else m + 1) = (vs ++ [v]).length % cap
      simp only [List.length_append, List.length_singleton]
      exact wrap_ge_eq_mod cap m hmc
    · show s._head = if (vs ++ [v]).length ≤ cap then 0 else ((vs ++ [v]).length - cap) % cap
      simp only [List.length_append, List.length_singleton]
      rw [hhd0, if_pos (by omega)]
    · intro i hi
      simp only [List.length_append, List.length_singleton] at hi ⊢
      have hi1 : i < m + 1 := by omega
      have hicap : i < cap := by omega
      show (s.c.set m v).getD ((s._head + i) % cap) default =
        (vs ++ [v]).getD (m + 1 - min (m + 1) cap + i) default
      rw [hhd0]
      have hidx : (0 + i) % cap = i := by
        rw [Nat.zero_add, Nat.mod_eq_of_lt hicap]
      rw [hidx]
      have hmin1 : m + 1 - min (m + 1) cap + i = i := by omega
      rw [hmin1]
      rcases Nat.lt_or_ge i m with him | him
      · rw [getD_set_ne _ _ _ _ _ (by omega), getD_append_left _ _ _ _ (by omega)]
        have := hlive i (by omega)
        rw [hhd0, hidx] at this
        rw [this]
        congr 1
        omega
      · have him' : i = m := by omega
        subst him'
        rw [getD_set_self _ _ _ _ (by omega)]
        rw [hm0, getD_concat_self]
  · -- the buffer is full: the then branch of push_back
    have hszge : s._size ≥ s._capacity := by rw [hcapEq, hsz]; omega
    have hhd' : s._head = (m - cap) % cap := by
      rw [hhd]
      split_ifs with h'
      · have hmeq : m = cap := by omega
        subst hmeq
        simp
      · rfl
    have hpb : s.push_back v =
        ⟨s.c.set (m % cap) v, (if s._head + 1 ≥ s._capacity then 0 else s._head + 1),
          m % cap, s._capacity, m % cap + 1, s._capacity⟩ := by
      rw [push_back_eq, if_pos hszge, hcur0]
    have hhdnew : (if s._head + 1 ≥ s._capacity then 0 else s._head + 1) =
        (m + 1 - cap) % cap := by
      rw [hcapEq, hhd', wrap_ge_eq_mod cap ((m - cap) % cap) (Nat.mod_lt _ (by omega)),
        Nat.mod_add_mod]
      congr 1
      omega
    rw [hpb]
    unfold PushInv
    refine ⟨hcapEq, by simpa [List.length_set] using hlen, ?_, ?_, ?_, ?_⟩
    · show s._capacity = min (vs ++ [v]).length cap
      simp only [List.length_append, List.length_singleton]
      rw [hcapEq]; omega
    · show (if m % cap + 1 ≥ cap then 0 else m % cap + 1) = (vs ++ [v]).length % cap
      simp only [List.length_append, List.length_singleton]
      rw [wrap_ge_eq_mod cap (m % cap) hmlt, Nat.mod_add_mod]
    · show (if s._head + 1 ≥ s._capacity then 0 else s._head + 1) =
        if (vs ++ [v]).length ≤ cap then 0 else ((vs ++ [v]).length - cap) % cap
      simp only [List.length_append, List.length_singleton]
      rw [hhdnew, if_neg (by omega)]
    · intro i hi
      simp only [List.length_append, List.length_singleton] at hi ⊢
      have hicap : i < cap := by omega
      show (s.c.set (m % cap) v).getD
          (((if s._head + 1 ≥ s._capacity then 0 else s._head + 1) + i) % cap) default =
        (vs ++ [v]).getD (m + 1 - min (m + 1) cap + i) default
      rw [hhdnew]
      have hmin1 : m + 1 - min (m + 1) cap + i = m + 1 - cap + i := by omega
      rw [hmin1]
      have hsig : ((m + 1 - cap) % cap + i) % cap = (m + 1 - cap + i) % cap :=
        Nat.mod_add_mod _ _ _
      rw [hsig]
      have hkey : m % cap = (m + 1 - cap + (cap - 1)) % cap := by
        congr 1
        omega
      rcases Nat.lt_or_ge i (cap - 1) with hic | hic
      · have hne : m % cap ≠ (m + 1 - cap + i) % cap := by
          rw [hkey]
          intro hcontra
          have := (mod_add_cancel_iff cap (by omega) (m + 1 - cap)
            (by omega : cap - 1 < cap) hicap).mp hcontra
          omega
        rw [getD_set_ne _ _ _ _ _ hne]
        have := hlive (i + 1) (by omega)
        rw [hhd'] at this
        rw [Nat.mod_add_mod] at this
        have harg : m - cap + (i + 1) = m + 1 - cap + i := by omega
        rw [harg] at this
        rw [this]
        have hidx2 : m - min m cap + (i + 1) = m + 1 - cap + i := by omega
        rw [hidx2, getD_append_left _ _ _ _ (by omega)]
      · have hie : i = cap - 1 := by omega
        subst hie
        rw [← hkey, getD_set_self _ _ _ _ hmlen]
        have hidxm : m + 1 - cap + (cap - 1) = m := by omega
        rw [hidxm]
        have hvs : m = vs.length := hm0
        rw [hvs, getD_concat_self]

lemma pushAll_pushInv [Inhabited α] (cap : Nat) (hcap : 1 ≤ cap) (c0 : List α)
    (hc0 : c0.length = cap) (vs : List α) :
    PushInv cap vs (pushAll (CircularBuffer.init c0 cap) vs) := by
  induction vs using List.reverseRecOn with
  | nil => exact pushInv_nil cap hcap c0 hc0
  | append_singleton vs v ih =>
    rw [pushAll_concat]
    exact pushInv_step cap hcap vs v _ ih

lemma collect_succ [Inhabited α] (n : Nat) (c : List α) (e : CircularBufferIterator)
    (fuel : Nat) (it : CircularBufferIterator) :
    collect n c e (fuel + 1) it =
      if it.beq e then some []
      else
        match collect n c e fuel (it.inc n) with
        | none => none
        | some l => some (c.getD it._cursor default :: l) := rfl

lemma collect_full [Inhabited α] (cap : Nat) (hcap : 1 ≤ cap) (c : List α)
    (E : CircularBufferIterator) (hE : E._done = true) (h : Nat) (hh : h < cap) :
    ∀ r t, 1 ≤ r → t + r = cap →
      collect cap c E (r + 1) ⟨h, (h + t) % cap, false⟩ =
        some ((List.range r).map fun i => c.getD ((h + t + i) % cap) default) := by
  intro r
  induction r with
  | zero => intro t h1 _; omega
  | succ r ih =>
    intro t _ ht
    have hbeq : CircularBufferIterator.beq ⟨h, (h + t) % cap, false⟩ E = false := by
      unfold CircularBufferIterator.beq
      rw [hE]
      simp
    have hinc : CircularBufferIterator.inc cap ⟨h, (h + t) % cap, false⟩ =
        ⟨h, (h + t + 1) % cap, ((h + t + 1) % cap == h)⟩ := by
      simp [CircularBufferIterator.inc,
        wrap_eq_eq_mod cap ((h + t) % cap) (Nat.mod_lt _ (by omega)), Nat.mod_add_mod]
    rcases Nat.eq_zero_or_pos r with hr0 | hrpos
    · subst hr0
      have hdone1 : (h + t + 1) % cap = h := by
        have harg : h + t + 1 = h + cap := by omega
        rw [harg, Nat.add_mod_right, Nat.mod_eq_of_lt hh]
      have hbeq2 : CircularBufferIterator.beq ⟨h, h, true⟩ E = true := by
        unfold CircularBufferIterator.beq
        rw [hE]
        simp
      simp [collect, hbeq, hinc, hdone1, hbeq2, List.range_succ]
    · have hne : (h + t + 1) % cap ≠ h := by
        intro hcontra
        have e1 : h + (t + 1) = h + t + 1 := by omega
        have e2 : (h + 0) % cap = h := by
          rw [Nat.add_zero]
          exact Nat.mod_eq_of_lt hh
        have h1 : (h + (t + 1)) % cap = (h + 0) % cap := by
          rw [e1, e2]
          exact hcontra
        have h2 := (mod_add_cancel_iff cap (by omega) h
          (by omega : t + 1 < cap) (by omega : 0 < cap)).mp h1
        omega
      have hbne : ((h + t + 1) % cap == h) = false := by
        simp [hne]
      have ihres := ih (t + 1) hrpos (by omega)
      have harg : h + (t + 1) = h + t + 1 := by omega
      rw [harg] at ihres
      rw [collect_succ, hbeq, if_neg (by simp), hinc, hbne, ihres]
      refine congrArg some ?_
      rw [List.range_succ_eq_map, List.map_cons, List.map_map]
      refine congrArg₂ List.cons ?_ ?_
      · simp
      · refine List.map_congr_left ?_
        intro a ha
        simp only [Function.comp_apply, Nat.succ_eq_add_one]
        have harg2 : h + t + (a + 1) = h + t + 1 + a := by omega
        rw [harg2]

/-- C3: pushing Capacity + k values (k >= 1) via the infallible push_back
into a fresh buffer leaves size() = Capacity, and iterating from begin() to
end() terminates (within Capacity + 1 loop steps) and yields exactly the
last Capacity pushed values in insertion order; push_back itself is a total
function of the model (noexcept in the source, it never fails). -/
theorem C3_overwrite_keeps_last_capacity [Inhabited α] (cap k : Nat) (c0 vs : List α)
    (hcap : 1 ≤ cap) (hk : 1 ≤ k) (hc0 : c0.length = cap) (hvs : vs.length = cap + k) :
    (pushAll (CircularBuffer.init c0 cap) vs).size = cap ∧
    collect cap (pushAll (CircularBuffer.init c0 cap) vs).c
      ((pushAll (CircularBuffer.init c0 cap) vs).endIter) (cap + 1)
      ((pushAll (CircularBuffer.init c0 cap) vs).begin) = some (vs.drop k) := by
  obtain ⟨hcapEq, hlen, hsz, hcur, hhd, hlive⟩ := pushAll_pushInv cap hcap c0 hc0 vs
  set s := pushAll (CircularBuffer.init c0 cap) vs with hs
  rw [hvs] at hsz hhd hlive
  have hmin : min (cap + k) cap = cap := by omega
  rw [hmin] at hsz hlive
  have hsize : s._size = cap := hsz
  have hhdk : s._head = k % cap := by
    rw [hhd, if_neg (by omega)]
    congr 1
    omega
  have hhlt : s._head < cap := by
    rw [hhdk]
    exact Nat.mod_lt _ (by omega)
  refine ⟨hsize, ?_⟩
  have hfull : s.full = true := by
    unfold CircularBuffer.full CircularBuffer.size
    rw [hsize, hcapEq]
    simp
  have hE : (s.endIter)._done = true := by
    unfold CircularBuffer.endIter
    exact hfull
  have hbegin : s.begin = ⟨s._head, (s._head + 0) % cap, false⟩ := by
    unfold CircularBuffer.begin
    rw [hcapEq, Nat.mod_eq_of_lt hhlt]
    congr 1
    rw [Nat.add_zero, Nat.mod_eq_of_lt hhlt]
  rw [hbegin,
    collect_full cap hcap s.c s.endIter hE s._head hhlt cap 0 (by omega) (by omega)]
  refine congrArg some ?_
  refine List.ext_getElem ?_ ?_
  · simp [hvs]
  · intro i h1 h2
    have hicap : i < cap := by simpa using h1
    have hl := hlive i (by omega)
    have hkirange : k + i < vs.length := by omega
    have hidx : cap + k - cap + i = k + i := by omega
    rw [hidx] at hl
    simp only [List.getElem_map, List.getElem_range]
    have hzero : s._head + 0 + i = s._head + i := by omega
    rw [hzero, hl, getD_of_lt vs (k + i) default hkirange]
    rw [List.get_eq_getElem, List.getElem_drop]

/-- C3 witness: capacity 2, three pushes, iteration yields the last two. -/
theorem C3_overwrite_keeps_last_capacity_w :
    1 ≤ 2 ∧ 1 ≤ 1 ∧ ([0, 0] : List Nat).length = 2 ∧
    ([5, 6, 7] : List Nat).length = 2 + 1 ∧
    ((pushAll (CircularBuffer.init ([0, 0] : List Nat) 2) [5, 6, 7]).size = 2 ∧
     collect 2 (pushAll (CircularBuffer.init ([0, 0] : List Nat) 2) [5, 6, 7]).c
       ((pushAll (CircularBuffer.init ([0, 0] : List Nat) 2) [5, 6, 7]).endIter) (2 + 1)
       ((pushAll (CircularBuffer.init ([0, 0] : List Nat) 2) [5, 6, 7]).begin) =
       some (([5, 6, 7] : List Nat).drop 1)) :=
  ⟨by decide, by decide, by decide, by decide,
    C3_overwrite_keeps_last_capacity 2 1 [0, 0] [5, 6, 7]
      (by decide) (by decide) (by decide) (by decide)⟩
